import Mathlib

/-!
Verification of the MinIO Prometheus bucket-summary parser
(`prometheus/bucket_summary.go` of jkandasa/min-tools).

The Go source is shallowly embedded below.  Strings are modelled as
`List Char` (`Str`), Go `int64` accumulators as `Int`, Go maps as
association lists in insertion order (Go map reads of absent keys give the
zero value; writes insert), and the streaming file scanner as a `foldl`
over the list of input lines.  Regex label extraction
(`bucket="([^"]+)"` etc.) is modelled by the leftmost-match scan it
performs.  `strconv.ParseFloat` is modelled as exact parsing of decimal
(optionally scientific) literals; hexadecimal floats, `Inf`/`NaN` and
underscore digit separators are not modelled, and the final conversion
`int64(f)` is modelled as exact truncation toward zero.
-/

namespace MinTools

abbrev Str := List Char

/-- Whitespace as used by `strings.Fields` / `strings.TrimSpace` (ASCII part). -/
def isSpace (c : Char) : Bool :=
  c = ' ' || c = '\t' || c = '\n' || c = '\x0b' || c = '\x0c' || c = '\r'

/-- `isDigit` from the source. -/
def isDigit (c : Char) : Bool := '0' ≤ c && c ≤ '9'

/-- `isLetter` from the source. -/
def isLetter (c : Char) : Bool := ('A' ≤ c && c ≤ 'Z') || ('a' ≤ c && c ≤ 'z')

/-- Does `pat` occur at the head of `l`? (literal-prefix test). -/
def startsWithS : Str → Str → Bool
  | [], _ => true
  | _ :: _, [] => false
  | p :: ps, c :: cs => p = c && startsWithS ps cs

/-- `strings.Contains l sub`: does `sub` occur anywhere in `l`? -/
def containsStr (sub : Str) : Str → Bool
  | [] => startsWithS sub []
  | c :: rest => startsWithS sub (c :: rest) || containsStr sub rest

/-- Characters before the first `"` in `l`, provided that quote exists. -/
def upToQuote : Str → Option Str
  | [] => none
  | c :: rest => if c = '"' then some [] else (upToQuote rest).map (c :: ·)

/-- The capture of `([^"]+)"`: a nonempty run of non-quote characters
closed by a quote. -/
def captureQuoted (l : Str) : Option Str :=
  match upToQuote l with
  | some cap => if cap = [] then none else some cap
  | none => none

/-- Leftmost match of the regex `lbl([^"]+)"` (with `lbl` a literal such
as `bucket="`), returning the capture.  Models
`regexp.FindStringSubmatch`: at each start position the literal must
match and the greedy capture must succeed, else the scan moves one
character right. -/
def extractLabel (lbl : Str) : Str → Option Str
  | [] => none
  | c :: rest =>
    if startsWithS lbl (c :: rest) then
      match captureQuoted ((c :: rest).drop lbl.length) with
      | some cap => some cap
      | none => extractLabel lbl rest
    else extractLabel lbl rest

def bucketLbl : Str := "bucket=\"".toList
def serverLbl : Str := "server=\"".toList
def rangeLbl : Str := "range=\"".toList

/-- `extractBucketName` (Go returns `""` on no match; we model that as `none`,
which is faithful because the capture group `[^"]+` is never empty). -/
def extractBucketName (line : Str) : Option Str := extractLabel bucketLbl line

/-- `extractServerName` as an `Option`; the Go `""` result is `.getD []`. -/
def extractServerName (line : Str) : Option Str := extractLabel serverLbl line

/-- `extractRange` as an `Option`; the Go `""` result is `.getD []`. -/
def extractRange (line : Str) : Option Str := extractLabel rangeLbl line

/-- Helper for `fields`: `cur` is the current (reversed) token. -/
def fieldsAux : Str → Str → List Str
  | [], cur => if cur = [] then [] else [cur.reverse]
  | c :: rest, cur =>
    if isSpace c then
      if cur = [] then fieldsAux rest [] else cur.reverse :: fieldsAux rest []
    else fieldsAux rest (c :: cur)

/-- `strings.Fields`: split around runs of whitespace. -/
def fields (l : Str) : List Str := fieldsAux l []

/-- `strings.TrimSpace`. -/
def trimSpace (l : Str) : Str :=
  ((l.dropWhile isSpace).reverse.dropWhile isSpace).reverse

def digitVal (c : Char) : Nat := c.toNat - '0'.toNat

def digitsValAux : Str → Nat → Nat
  | [], acc => acc
  | c :: rest, acc => digitsValAux rest (acc * 10 + digitVal c)

/-- Base-10 value of a digit string (digits assumed checked separately). -/
def digitsVal (s : Str) : Nat := digitsValAux s 0

def allDigits : Str → Bool
  | [] => true
  | c :: rest => isDigit c && allDigits rest

/-- Parse a nonempty all-digit string. -/
def parseDigits (s : Str) : Option Nat :=
  if s = [] then none
  else if allDigits s then some (digitsVal s) else none

def int64Max : Int := 9223372036854775807
def int64Min : Int := -9223372036854775808

/-- `strconv.ParseInt(s, 10, 64)`: optional sign, nonempty digits,
64-bit range check (out-of-range is an error, hence `none`). -/
def goParseInt (s : Str) : Option Int :=
  match s with
  | '+' :: rest => (parseDigits rest).bind fun n =>
      if (n : Int) ≤ int64Max then some (n : Int) else none
  | '-' :: rest => (parseDigits rest).bind fun n =>
      if int64Min ≤ -(n : Int) then some (-(n : Int)) else none
  | _ => (parseDigits s).bind fun n =>
      if (n : Int) ≤ int64Max then some (n : Int) else none

/-- Split at the first `e`/`E` (mantissa, optional exponent part). -/
def splitAtE : Str → Str × Option Str
  | [] => ([], none)
  | c :: rest =>
    if c = 'e' ∨ c = 'E' then ([], some rest)
    else
      let p := splitAtE rest
      (c :: p.1, p.2)

/-- Split at the first `.` (integer part, optional fraction part). -/
def splitAtDot : Str → Str × Option Str
  | [] => ([], none)
  | c :: rest =>
    if c = '.' then ([], some rest)
    else
      let p := splitAtDot rest
      (c :: p.1, p.2)

/-- Mantissa of a decimal literal: digits with at most one dot and at
least one digit.  Returns the digit string's value and the number of
fractional digits. -/
def parseMantissa (s : Str) : Option (Nat × Nat) :=
  let p := splitAtDot s
  match p.2 with
  | none => if p.1 ≠ [] ∧ allDigits p.1 then some (digitsVal p.1, 0) else none
  | some fp =>
    if (p.1 ≠ [] ∨ fp ≠ []) ∧ allDigits p.1 ∧ allDigits fp then
      some (digitsVal (p.1 ++ fp), fp.length)
    else none

/-- Exponent part: optional sign then nonempty digits. -/
def parseExpPart : Str → Option Int
  | '+' :: rest => (parseDigits rest).map fun n => (n : Int)
  | '-' :: rest => (parseDigits rest).map fun n => -(n : Int)
  | s => (parseDigits s).map fun n => (n : Int)

/-- `m * 10^e` truncated toward zero (for `m : Nat` truncation is `Nat`
division by a power of ten). -/
def truncScale (m : Nat) (e : Int) : Int :=
  if 0 ≤ e then (m : Int) * (10 : Int) ^ e.toNat
  else ((m / 10 ^ (-e).toNat : Nat) : Int)

/-- `int64(strconv.ParseFloat(s, 64))` modelled exactly over decimal
(optionally scientific) literals, truncating toward zero.  Hexadecimal
floats, `Inf`/`NaN` and underscore separators are not modelled. -/
def goParseFloatTrunc (s : Str) : Option Int :=
  let sb : Int × Str :=
    match s with
    | '+' :: rest => (1, rest)
    | '-' :: rest => (-1, rest)
    | _ => (1, s)
  let me := splitAtE sb.2
  match parseMantissa me.1 with
  | none => none
  | some mf =>
    match me.2 with
    | none => some (sb.1 * truncScale mf.1 (-(mf.2 : Int)))
    | some es =>
      match parseExpPart es with
      | none => none
      | some e => some (sb.1 * truncScale mf.1 (e - (mf.2 : Int)))

def dunder : Str := ['_', '_']

/-- The underscore-insertion pass of `normalizeRange`: write each input
character, inserting `_` between a digit and an immediately following
letter. -/
def insertUnders : Str → Str
  | [] => []
  | [c] => [c]
  | a :: b :: rest =>
    if isDigit a && isLetter b then a :: '_' :: insertUnders (b :: rest)
    else a :: insertUnders (b :: rest)

/-- One `strings.ReplaceAll(cur, "__", "_")` pass (left-to-right,
non-overlapping). -/
def replaceDunder : Str → Str
  | '_' :: '_' :: rest => '_' :: replaceDunder rest
  | c :: rest => c :: replaceDunder rest
  | [] => []

theorem replaceDunder_length_le (l : Str) : (replaceDunder l).length ≤ l.length := by
  induction l using replaceDunder.induct <;> simp [replaceDunder, *]
  omega

theorem replaceDunder_cons (c : Char) (l : Str)
    (h : ¬(c = '_' ∧ l.head? = some '_')) :
    replaceDunder (c :: l) = c :: replaceDunder l := by
  rw [replaceDunder.eq_def]
  split
  · rename_i rest heq
    rw [List.cons.injEq] at heq
    exact absurd ⟨heq.1, by rw [heq.2]; rfl⟩ h
  · rename_i c' rest heq
    rw [List.cons.injEq] at heq
    rw [heq.1, heq.2]
  · rename_i heq
    exact absurd heq (by simp)

theorem containsStr_dunder_cons (c : Char) (l : Str) :
    containsStr dunder (c :: l) = true ↔
      ((c = '_' ∧ l.head? = some '_') ∨ containsStr dunder l = true) := by
  cases l with
  | nil => simp [containsStr, startsWithS, dunder]
  | cons d t =>
    simp only [containsStr, startsWithS, dunder, Bool.or_eq_true, Bool.and_eq_true,
      decide_eq_true_eq, List.head?_cons, Option.some.injEq]
    constructor
    · rintro (⟨h1, h2, -⟩ | h)
      · exact Or.inl ⟨h1.symm, h2.symm⟩
      · exact Or.inr h
    · rintro (⟨h1, h2⟩ | h)
      · exact Or.inl ⟨h1.symm, h2.symm, trivial⟩
      · exact Or.inr h

theorem replaceDunder_length_lt (l : Str) (h : containsStr dunder l = true) :
    (replaceDunder l).length < l.length := by
  induction l using replaceDunder.induct with
  | case1 rest _ =>
    have := replaceDunder_length_le rest
    simp [replaceDunder]
    omega
  | case2 c rest hne ih =>
    have hnot : ¬(c = '_' ∧ rest.head? = some '_') := by
      rintro ⟨hc, hd⟩
      cases rest with
      | nil => simp at hd
      | cons d t =>
        simp only [List.head?_cons, Option.some.injEq] at hd
        exact hne t hc (by rw [hd])
    have hc : containsStr dunder rest = true := by
      rcases (containsStr_dunder_cons c rest).mp h with h' | h'
      · exact absurd h' hnot
      · exact h'
    rw [replaceDunder_cons c rest hnot]
    have := ih hc
    simpa using this
  | case3 => simp [containsStr, startsWithS, dunder] at h

/-- The `for strings.Contains(cur, "__") { cur = ReplaceAll(cur, "__", "_") }`
loop of `normalizeRange`. -/
def collapseDunder (l : Str) : Str :=
  if h : containsStr dunder l = true then collapseDunder (replaceDunder l)
  else l
termination_by l.length
decreasing_by exact replaceDunder_length_lt l h

/-- `normalizeRange` from the source. -/
def normalizeRange (r : Str) : Str :=
  if r = [] then r else collapseDunder (insertUnders r)

/-- `extractValue`: last whitespace-delimited token, integer parse first,
then float parse truncated, else `0`. -/
def extractValue (line : Str) : Int :=
  match (fields line).getLast? with
  | none => 0
  | some tok =>
    match goParseInt tok with
    | some v => v
    | none =>
      match goParseFloatTrunc tok with
      | some v => v
      | none => 0

end MinTools

namespace MinTools

/-- `BucketSummary` from the source.  `sizeHuman` holds the byte count
last passed to `formatBytes` (`none` models the Go zero value `""`);
the rendered human string is a pure function of it. -/
structure BucketSummary where
  name : Str
  objectCount : Int
  sizeBytes : Int
  sizeHuman : Option Int
  servers : List Str
  versionDistribution : List (Str × Int)
  sizeDistribution : List (Str × Int)
deriving DecidableEq, Repr

/-- `MetricParser` from the source. -/
structure MetricParser where
  buckets : List (Str × BucketSummary)
  clusterObjects : Int
  clusterBytes : Int
  clusterVersionDist : List (Str × Int)
  clusterSizeDist : List (Str × Int)
deriving DecidableEq, Repr

/-- `DisplayOptions` from the source. -/
structure DisplayOptions where
  showVersions : Bool
  showSizes : Bool
  cluster : Bool
deriving DecidableEq, Repr

/-- `NewMetricParser`. -/
def newMetricParser : MetricParser :=
  { buckets := [], clusterObjects := 0, clusterBytes := 0,
    clusterVersionDist := [], clusterSizeDist := [] }

/-- Association-list lookup modelling a Go map read (`none` = absent). -/
def alookup (k : Str) : List (Str × α) → Option α
  | [] => none
  | p :: rest => if p.1 = k then some p.2 else alookup k rest

/-- Go map read with zero default: `m[k]` for `map[string]int64`. -/
def mapGetD (m : List (Str × Int)) (k : Str) : Int := (alookup k m).getD 0

/-- Go map write `m[k] = f (m[k] or d)`: update in place if present,
else append a fresh entry seeded with `d`. -/
def mapUpd (k : Str) (d : α) (f : α → α) : List (Str × α) → List (Str × α)
  | [] => [(k, f d)]
  | p :: rest => if p.1 = k then (p.1, f p.2) :: rest else p :: mapUpd k d f rest

/-- `m[k] += v` on a Go `map[string]int64`. -/
def incr (m : List (Str × Int)) (k : Str) (v : Int) : List (Str × Int) :=
  mapUpd k 0 (· + v) m

/-- `BucketSummary.addServer`: append if not already present. -/
def addServer (bs : BucketSummary) (server : Str) : BucketSummary :=
  if server ∈ bs.servers then bs
  else { bs with servers := bs.servers ++ [server] }

def objFam : Str := "minio_bucket_usage_object_total".toList
def bytesFam : Str := "minio_bucket_usage_total_bytes".toList
def verDistFam : Str := "minio_bucket_objects_version_distribution".toList
def sizeDistFam : Str := "minio_bucket_objects_size_distribution".toList
def clObjFam : Str := "minio_cluster_usage_object_total".toList
def clBytesFam : Str := "minio_cluster_usage_total_bytes".toList
def clVerDistFam : Str := "minio_cluster_objects_version_distribution".toList
def clSizeDistFam : Str := "minio_cluster_objects_size_distribution".toList

/-- The fresh `BucketSummary` created when a bucket is first seen. -/
def freshBucket (name : Str) : BucketSummary :=
  { name := name, objectCount := 0, sizeBytes := 0, sizeHuman := none,
    servers := [], versionDistribution := [], sizeDistribution := [] }

/-- The per-bucket part of the `ParseFile` loop body: `addServer` then the
four (non-exclusive) metric-family accumulations. -/
def applyBucketLine (line : Str) (server : Str) (bs : BucketSummary) : BucketSummary :=
  let bs := addServer bs server
  let bs :=
    if containsStr objFam line = true then
      { bs with objectCount := bs.objectCount + extractValue line }
    else bs
  let bs :=
    if containsStr bytesFam line = true then
      { bs with sizeBytes := bs.sizeBytes + extractValue line,
                sizeHuman := some (bs.sizeBytes + extractValue line) }
    else bs
  let bs :=
    if containsStr verDistFam line = true then
      match extractRange line with
      | some r =>
        let vd := incr bs.versionDistribution (normalizeRange r) (extractValue line)
        { bs with versionDistribution := vd }
      | none => bs
    else bs
  let bs :=
    if containsStr sizeDistFam line = true then
      match extractRange line with
      | some r =>
        let sd := incr bs.sizeDistribution (normalizeRange r) (extractValue line)
        { bs with sizeDistribution := sd }
      | none => bs
    else bs
  bs

/-- The cluster-fallback part of the `ParseFile` loop body (the branch
taken when the line has no bucket label): the four cluster metric-family
checks, each ending in `continue`. -/
def clusterApply (mp : MetricParser) (line : Str) : MetricParser :=
  if containsStr clObjFam line = true then
    { mp with clusterObjects := mp.clusterObjects + extractValue line }
  else if containsStr clBytesFam line = true then
    { mp with clusterBytes := mp.clusterBytes + extractValue line }
  else if containsStr clVerDistFam line = true then
    match extractRange line with
    | some r =>
      let vd := incr mp.clusterVersionDist (normalizeRange r) (extractValue line)
      { mp with clusterVersionDist := vd }
    | none => mp
  else if containsStr clSizeDistFam line = true then
    match extractRange line with
    | some r =>
      let sd := incr mp.clusterSizeDist (normalizeRange r) (extractValue line)
      { mp with clusterSizeDist := sd }
    | none => mp
  else mp

/-- One iteration of the `ParseFile` scanner loop. -/
def processLine (mp : MetricParser) (raw : Str) : MetricParser :=
  let line := trimSpace raw
  if startsWithS ['#'] line = true ∨ line = [] then mp
  else
    match extractBucketName line with
    | none => clusterApply mp line
    | some bucketName =>
      let serverName := (extractServerName line).getD []
      let bkts := mapUpd bucketName (freshBucket bucketName)
        (applyBucketLine line serverName) mp.buckets
      { mp with buckets := bkts }

/-- `ParseFile` on a list of input lines. -/
def parseLines (input : List Str) : MetricParser :=
  input.foldl processLine newMetricParser

end MinTools

namespace MinTools

def unvKey : Str := "UNVERSIONED".toList
def svKey : Str := "SINGLE_VERSION".toList

/-- Sum of the counts under all keys other than `UNVERSIONED` and
`SINGLE_VERSION` (the `totalVersioned` loop of `getVersioningStatus`). -/
def multiSum (m : List (Str × Int)) : Int :=
  ((m.filter fun p => ¬(p.1 = unvKey ∨ p.1 = svKey)).map (·.2)).sum

/-- `getVersioningStatus` from the source. -/
def getVersioningStatus (m : List (Str × Int)) : Str :=
  if m = [] then "Unknown".toList
  else
    let singleVersion := mapGetD m svKey
    let unversioned := mapGetD m unvKey
    let totalVersioned := multiSum m
    if 0 < unversioned ∧ singleVersion = 0 ∧ totalVersioned = 0 then "Unversioned".toList
    else if 0 < singleVersion ∧ totalVersioned = 0 then "Single Version".toList
    else if 0 < totalVersioned then "Multi-Version".toList
    else "Mixed".toList

def kLt1KB : Str := "LESS_THAN_1024_B".toList
def k1KB64KB : Str := "BETWEEN_1024_B_AND_64_KB".toList
def k1KB1MBa : Str := "BETWEEN_1024_B_AND_1_MB".toList
def k1KB1MBb : Str := "BETWEEN_1024B_AND_1_MB".toList
def k64KB256KB : Str := "BETWEEN_64_KB_AND_256_KB".toList
def k256KB512KB : Str := "BETWEEN_256_KB_AND_512_KB".toList
def k512KB1MB : Str := "BETWEEN_512_KB_AND_1_MB".toList
def k1MB10MB : Str := "BETWEEN_1_MB_AND_10_MB".toList
def k10MB64MB : Str := "BETWEEN_10_MB_AND_64_MB".toList
def k64MB128MB : Str := "BETWEEN_64_MB_AND_128_MB".toList
def k128MB512MB : Str := "BETWEEN_128_MB_AND_512_MB".toList
def kGt512MB : Str := "GREATER_THAN_512_MB".toList

/-- `small` in `getSizeStatus`: all sub-1MB range counts. -/
def smallSum (m : List (Str × Int)) : Int :=
  mapGetD m kLt1KB + mapGetD m k1KB64KB + mapGetD m k1KB1MBa + mapGetD m k1KB1MBb +
    mapGetD m k64KB256KB + mapGetD m k256KB512KB + mapGetD m k512KB1MB

/-- `medium` in `getSizeStatus`: the 1MB-10MB and 10MB-64MB range counts. -/
def mediumSum (m : List (Str × Int)) : Int :=
  mapGetD m k1MB10MB + mapGetD m k10MB64MB

/-- `large` in `getSizeStatus`: the 64MB-and-above range counts. -/
def largeSum (m : List (Str × Int)) : Int :=
  mapGetD m k64MB128MB + mapGetD m k128MB512MB + mapGetD m kGt512MB

/-- `total` in `getSizeStatus`. -/
def sizeTotal (m : List (Str × Int)) : Int := smallSum m + mediumSum m + largeSum m

/-- `getSizeStatus` from the source.  The Go `float64` percentage
arithmetic is modelled exactly over `ℚ`. -/
def getSizeStatus (m : List (Str × Int)) : Str :=
  if m = [] then "Unknown".toList
  else
    let small := smallSum m
    let medium := mediumSum m
    let large := largeSum m
    let total := small + medium + large
    if total = 0 then "Empty".toList
    else
      let smallPct : ℚ := (small : ℚ) / (total : ℚ) * 100
      let mediumPct : ℚ := (medium : ℚ) / (total : ℚ) * 100
      let largePct : ℚ := (large : ℚ) / (total : ℚ) * 100
      if 80 ≤ smallPct then "Mostly Small".toList
      else if 60 ≤ mediumPct then "Mostly Medium".toList
      else if 60 ≤ largePct then "Mostly Large".toList
      else "Mixed Sizes".toList

/-- Insertion step of the descending-size sort (stable: an element is
placed before the first strictly smaller one). -/
def sortInsert (b : BucketSummary) : List BucketSummary → List BucketSummary
  | [] => [b]
  | c :: rest =>
    if c.sizeBytes < b.sizeBytes then b :: c :: rest else c :: sortInsert b rest

/-- The `sort.Slice(summaries, SizeBytes[i] > SizeBytes[j])` call,
modelled as insertion sort by descending `sizeBytes`. -/
def sortBySizeDesc (l : List BucketSummary) : List BucketSummary :=
  l.foldr sortInsert []

/-- `GetSummary`: the bucket map's values, sorted by descending size. -/
def getSummary (mp : MetricParser) : List BucketSummary :=
  sortBySizeDesc (mp.buckets.map (·.2))

/-- The guard `ClusterObjects > 0 || ClusterBytes > 0 ||
len(ClusterVersionDist) > 0 || len(ClusterSizeDist) > 0`. -/
def clusterHasData (mp : MetricParser) : Prop :=
  0 < mp.clusterObjects ∨ 0 < mp.clusterBytes ∨
    mp.clusterVersionDist ≠ [] ∨ mp.clusterSizeDist ≠ []

instance (mp : MetricParser) : Decidable (clusterHasData mp) := by
  unfold clusterHasData; infer_instance

def clusterName : Str := "<cluster-aggregate>".toList

/-- The synthetic `<cluster-aggregate>` row. -/
def clusterRow (mp : MetricParser) : BucketSummary :=
  { name := clusterName, objectCount := mp.clusterObjects,
    sizeBytes := mp.clusterBytes, sizeHuman := some mp.clusterBytes,
    servers := [], versionDistribution := mp.clusterVersionDist,
    sizeDistribution := mp.clusterSizeDist }

/-- The list of data rows `PrintSummaryTable` renders (in order): the
sorted summaries, with the cluster-aggregate fallback when no per-bucket
data exists, and the explicitly requested cluster row (re-sorted in)
under `opts.cluster`.  An empty result models the early `return` that
prints no table. -/
def tableRows (mp : MetricParser) (opts : DisplayOptions) : List BucketSummary :=
  let summaries := getSummary mp
  let summaries :=
    if summaries = [] then
      if clusterHasData mp then [clusterRow mp] else []
    else summaries
  if opts.cluster = true ∧ clusterHasData mp ∧ ¬∃ b ∈ summaries, b.name = clusterName then
    sortBySizeDesc (summaries ++ [clusterRow mp])
  else summaries

/-- The `totalObjects`/`totalBytes` accumulators of the render loop. -/
def tableTotals (mp : MetricParser) (opts : DisplayOptions) : Int × Int :=
  (tableRows mp opts).foldl (fun acc b => (acc.1 + b.objectCount, acc.2 + b.sizeBytes)) (0, 0)

end MinTools

namespace MinTools

/-- Is some digit immediately followed by a letter? -/
def digitLetterAdj : Str → Bool
  | a :: b :: rest => (isDigit a && isLetter b) || digitLetterAdj (b :: rest)
  | _ => false

theorem digitLetterAdj_cons_eq (c : Char) (l : Str) :
    digitLetterAdj (c :: l) =
      ((l.head?.elim false fun b => isDigit c && isLetter b) || digitLetterAdj l) := by
  cases l <;> rfl

theorem digitLetterAdj_tail (c : Char) (l : Str)
    (h : digitLetterAdj (c :: l) = false) : digitLetterAdj l = false := by
  rw [digitLetterAdj_cons_eq, Bool.or_eq_false_iff] at h
  exact h.2

theorem insertUnders_head? (l : Str) : (insertUnders l).head? = l.head? := by
  cases l with
  | nil => rfl
  | cons b t =>
    cases t with
    | nil => rfl
    | cons c t' =>
      show (insertUnders (b :: c :: t')).head? = some b
      rw [insertUnders]
      split <;> rfl

theorem insertUnders_noAdj (l : Str) : digitLetterAdj (insertUnders l) = false := by
  induction l using insertUnders.induct with
  | case1 => rfl
  | case2 c => rfl
  | case3 a b rest hcond ih =>
    have hh : (insertUnders (b :: rest)).head? = some b := by
      rw [insertUnders_head?]; rfl
    rw [insertUnders]
    simp only [hcond, if_true]
    rw [digitLetterAdj_cons_eq]
    rw [show (('_' :: insertUnders (b :: rest)).head? = some '_') from rfl]
    rw [digitLetterAdj_cons_eq, hh]
    simp [isLetter, isDigit, ih]
  | case4 a b rest hcond ih =>
    have hh : (insertUnders (b :: rest)).head? = some b := by
      rw [insertUnders_head?]; rfl
    rw [insertUnders, if_neg hcond]
    rw [digitLetterAdj_cons_eq, hh]
    simp only [Option.elim_some]
    rw [Bool.or_eq_false_iff]
    exact ⟨by simpa using hcond, ih⟩

theorem insertUnders_id (l : Str) (h : digitLetterAdj l = false) :
    insertUnders l = l := by
  induction l using insertUnders.induct with
  | case1 => rfl
  | case2 c => rfl
  | case3 a b rest hcond ih =>
    rw [digitLetterAdj_cons_eq] at h
    rcases Bool.or_eq_false_iff.mp h with ⟨h1, -⟩
    simp only [List.head?_cons, Option.elim_some] at h1
    rw [h1] at hcond
    exact absurd hcond (by simp)
  | case4 a b rest hcond ih =>
    have ht : digitLetterAdj (b :: rest) = false := digitLetterAdj_tail _ _ h
    rw [insertUnders, if_neg hcond]
    rw [ih ht]

theorem replaceDunder_head? (l : Str) : (replaceDunder l).head? = l.head? := by
  cases l with
  | nil => rfl
  | cons c t =>
    by_cases h : c = '_' ∧ t.head? = some '_'
    · obtain ⟨hc, ht⟩ := h
      cases t with
      | nil => simp at ht
      | cons d t' =>
        simp only [List.head?_cons, Option.some.injEq] at ht
        subst hc; subst ht
        rfl
    · rw [replaceDunder_cons c t h]; rfl

theorem replaceDunder_noAdj (l : Str) (h : digitLetterAdj l = false) :
    digitLetterAdj (replaceDunder l) = false := by
  induction l using replaceDunder.induct with
  | case1 rest ih =>
    have ht : digitLetterAdj rest = false :=
      digitLetterAdj_tail _ _ (digitLetterAdj_tail _ _ h)
    show digitLetterAdj ('_' :: replaceDunder rest) = false
    rw [digitLetterAdj_cons_eq, replaceDunder_head?, Bool.or_eq_false_iff]
    refine ⟨?_, ih ht⟩
    cases hr : rest.head? with
    | none => rfl
    | some b => simp [isDigit]
  | case2 c rest hne ih =>
    have hnot : ¬(c = '_' ∧ rest.head? = some '_') := by
      rintro ⟨hc, hd⟩
      cases rest with
      | nil => simp at hd
      | cons d t =>
        simp only [List.head?_cons, Option.some.injEq] at hd
        exact hne t hc (by rw [hd])
    rw [replaceDunder_cons c rest hnot, digitLetterAdj_cons_eq, replaceDunder_head?,
      Bool.or_eq_false_iff]
    rw [digitLetterAdj_cons_eq, Bool.or_eq_false_iff] at h
    exact ⟨h.1, ih h.2⟩
  | case3 => rfl

theorem collapseDunder_id (l : Str) (h : containsStr dunder l = false) :
    collapseDunder l = l := by
  rw [collapseDunder]
  simp [h]

theorem collapseDunder_no_dunder (l : Str) :
    containsStr dunder (collapseDunder l) = false := by
  induction l using collapseDunder.induct with
  | case1 l h ih =>
    rw [collapseDunder]
    simp only [h, dite_true]
    exact ih
  | case2 l h =>
    rw [collapseDunder]
    simp only [h, dite_false]
    simpa using h

theorem collapseDunder_noAdj (l : Str) (h : digitLetterAdj l = false) :
    digitLetterAdj (collapseDunder l) = false := by
  induction l using collapseDunder.induct with
  | case1 l hc ih =>
    rw [collapseDunder]
    simp only [hc, dite_true]
    exact ih (replaceDunder_noAdj l h)
  | case2 l hc =>
    rw [collapseDunder]
    simp only [hc, dite_false]
    exact h

theorem normalizeRange_noAdj (r : Str) : digitLetterAdj (normalizeRange r) = false := by
  rw [normalizeRange]
  split
  · rename_i h; rw [h]; rfl
  · exact collapseDunder_noAdj _ (insertUnders_noAdj r)

theorem normalizeRange_no_dunder (r : Str) :
    containsStr dunder (normalizeRange r) = false := by
  rw [normalizeRange]
  split
  · rename_i h; rw [h]; rfl
  · exact collapseDunder_no_dunder _

theorem normalizeRange_idem (r : Str) :
    normalizeRange (normalizeRange r) = normalizeRange r := by
  by_cases h : normalizeRange r = []
  · rw [h]; rfl
  · rw [normalizeRange.eq_def]
    simp only [h, if_false]
    rw [insertUnders_id _ (normalizeRange_noAdj r)]
    exact collapseDunder_id _ (normalizeRange_no_dunder r)

end MinTools

namespace MinTools

theorem alookup_mapUpd_self (k : Str) (d : α) (f : α → α) (m : List (Str × α)) :
    alookup k (mapUpd k d f m) = some (f ((alookup k m).getD d)) := by
  induction m with
  | nil => simp [mapUpd, alookup]
  | cons p rest ih =>
    by_cases h : p.1 = k
    · simp [mapUpd, alookup, h]
    · simp [mapUpd, alookup, h, ih]

theorem alookup_mapUpd_other (k k' : Str) (d : α) (f : α → α) (m : List (Str × α))
    (h : k' ≠ k) : alookup k (mapUpd k' d f m) = alookup k m := by
  induction m with
  | nil => simp [mapUpd, alookup, h]
  | cons p rest ih =>
    by_cases hp : p.1 = k'
    · simp [mapUpd, alookup, hp, h, hp ▸ h]
    · simp [mapUpd, alookup, hp, ih]

theorem alookup_mem (k : Str) (m : List (Str × α)) (v : α)
    (h : alookup k m = some v) : (k, v) ∈ m := by
  induction m with
  | nil => simp [alookup] at h
  | cons p rest ih =>
    obtain ⟨p1, p2⟩ := p
    by_cases hp : p1 = k
    · simp only [alookup, hp, if_true, Option.some.injEq] at h
      subst hp
      subst h
      exact List.mem_cons_self _ _
    · simp only [alookup, hp, if_false] at h
      exact List.mem_cons_of_mem _ (ih h)

theorem mapGetD_nonneg (m : List (Str × Int)) (h : ∀ p ∈ m, 0 ≤ p.2) (k : Str) :
    0 ≤ mapGetD m k := by
  unfold mapGetD
  cases hv : alookup k m with
  | none => simp
  | some v => simpa using h _ (alookup_mem k m v hv)

theorem multiSum_nonneg (m : List (Str × Int)) (h : ∀ p ∈ m, 0 ≤ p.2) :
    0 ≤ multiSum m := by
  apply List.sum_nonneg
  intro x hx
  simp only [List.mem_map] at hx
  obtain ⟨p, hp, rfl⟩ := hx
  exact h p (List.mem_of_mem_filter hp)

/-- The versioning-status rule as the spec states it, with "nonzero"
counts (`≠ 0`). -/
def versioningStatusSpec (m : List (Str × Int)) : Str :=
  if m = [] then "Unknown".toList
  else if mapGetD m unvKey ≠ 0 ∧ mapGetD m svKey = 0 ∧ multiSum m = 0 then
    "Unversioned".toList
  else if mapGetD m svKey ≠ 0 ∧ multiSum m = 0 then "Single Version".toList
  else if multiSum m ≠ 0 then "Multi-Version".toList
  else "Mixed".toList

theorem getVersioningStatus_eq_spec (m : List (Str × Int)) (h : ∀ p ∈ m, 0 ≤ p.2) :
    getVersioningStatus m = versioningStatusSpec m := by
  have h1 := mapGetD_nonneg m h unvKey
  have h2 := mapGetD_nonneg m h svKey
  have h3 := multiSum_nonneg m h
  simp only [getVersioningStatus, versioningStatusSpec]
  split_ifs <;> first | rfl | (exfalso; omega)

end MinTools

namespace MinTools

theorem pct_threshold (k a t : Int) (ht : 0 < t) :
    ((k : ℚ) ≤ (a : ℚ) / (t : ℚ) * 100) ↔ k * t ≤ a * 100 := by
  rw [div_mul_eq_mul_div, le_div_iff (by exact_mod_cast ht)]
  exact_mod_cast Iff.rfl

theorem pct_threshold80 (a t : Int) (ht : 0 < t) :
    ((80 : ℚ) ≤ (a : ℚ) / (t : ℚ) * 100) ↔ 80 * t ≤ a * 100 := by
  rw [show ((80 : ℚ)) = (((80 : Int) : ℚ)) from by norm_num]
  exact pct_threshold 80 a t ht

theorem pct_threshold60 (a t : Int) (ht : 0 < t) :
    ((60 : ℚ) ≤ (a : ℚ) / (t : ℚ) * 100) ↔ 60 * t ≤ a * 100 := by
  rw [show ((60 : ℚ)) = (((60 : Int) : ℚ)) from by norm_num]
  exact pct_threshold 60 a t ht

/-- The size-status rule in integer-threshold form (the spec's
percentage comparisons cleared of division), plus the empty-map case the
source actually implements. -/
def sizeStatusSpec (m : List (Str × Int)) : Str :=
  if m = [] then "Unknown".toList
  else if smallSum m + mediumSum m + largeSum m = 0 then "Empty".toList
  else if 80 * (smallSum m + mediumSum m + largeSum m) ≤ smallSum m * 100 then
    "Mostly Small".toList
  else if 60 * (smallSum m + mediumSum m + largeSum m) ≤ mediumSum m * 100 then
    "Mostly Medium".toList
  else if 60 * (smallSum m + mediumSum m + largeSum m) ≤ largeSum m * 100 then
    "Mostly Large".toList
  else "Mixed Sizes".toList

theorem getSizeStatus_eq_spec (m : List (Str × Int)) (hm : m ≠ [])
    (h : ∀ p ∈ m, 0 ≤ p.2) : getSizeStatus m = sizeStatusSpec m := by
  have g := mapGetD_nonneg m h
  have hsm : 0 ≤ smallSum m := by
    unfold smallSum
    have := g kLt1KB; have := g k1KB64KB; have := g k1KB1MBa; have := g k1KB1MBb
    have := g k64KB256KB; have := g k256KB512KB; have := g k512KB1MB
    omega
  have hmd : 0 ≤ mediumSum m := by
    unfold mediumSum
    have := g k1MB10MB; have := g k10MB64MB
    omega
  have hlg : 0 ≤ largeSum m := by
    unfold largeSum
    have := g k64MB128MB; have := g k128MB512MB; have := g kGt512MB
    omega
  simp only [getSizeStatus, sizeStatusSpec]
  rw [if_neg hm, if_neg hm]
  by_cases ht : smallSum m + mediumSum m + largeSum m = 0
  · rw [if_pos ht, if_pos ht]
  · have htpos : 0 < smallSum m + mediumSum m + largeSum m := by omega
    have e1 := pct_threshold80 (smallSum m) _ htpos
    have e2 := pct_threshold60 (mediumSum m) _ htpos
    have e3 := pct_threshold60 (largeSum m) _ htpos
    rw [if_neg ht, if_neg ht]
    simp only [e1, e2, e3]

/-- Non-increasing in `sizeBytes` from head to tail. -/
def sizeSortedDesc (l : List BucketSummary) : Prop :=
  l.Pairwise fun a b => b.sizeBytes ≤ a.sizeBytes

theorem sortInsert_mem (b x : BucketSummary) (l : List BucketSummary) :
    x ∈ sortInsert b l ↔ x = b ∨ x ∈ l := by
  induction l with
  | nil => simp [sortInsert]
  | cons c rest ih =>
    unfold sortInsert
    by_cases hlt : c.sizeBytes < b.sizeBytes
    · rw [if_pos hlt]
      simp only [List.mem_cons, ih]
      all_goals tauto
    · rw [if_neg hlt]
      simp only [List.mem_cons, ih]
      all_goals tauto

theorem sortInsert_sorted (b : BucketSummary) (l : List BucketSummary)
    (h : sizeSortedDesc l) : sizeSortedDesc (sortInsert b l) := by
  induction l with
  | nil => simp [sortInsert, sizeSortedDesc]
  | cons c rest ih =>
    rcases List.pairwise_cons.mp h with ⟨hc, hrest⟩
    unfold sortInsert
    by_cases hlt : c.sizeBytes < b.sizeBytes
    · rw [if_pos hlt]
      refine List.pairwise_cons.mpr ⟨?_, h⟩
      intro x hx
      rcases List.mem_cons.mp hx with rfl | hx
      · exact le_of_lt hlt
      · exact le_trans (hc x hx) (le_of_lt hlt)
    · rw [if_neg hlt]
      refine List.pairwise_cons.mpr ⟨?_, ih hrest⟩
      intro x hx
      rcases (sortInsert_mem b x rest).mp hx with rfl | hx
      · omega
      · exact hc x hx

theorem sortBySizeDesc_sorted (l : List BucketSummary) :
    sizeSortedDesc (sortBySizeDesc l) := by
  unfold sortBySizeDesc
  induction l with
  | nil => exact List.Pairwise.nil
  | cons b rest ih => exact sortInsert_sorted b _ ih

theorem foldl_pair_sum (l : List BucketSummary) (a b : Int) :
    l.foldl (fun acc bs => (acc.1 + bs.objectCount, acc.2 + bs.sizeBytes)) (a, b) =
      (a + (l.map (·.objectCount)).sum, b + (l.map (·.sizeBytes)).sum) := by
  induction l generalizing a b with
  | nil => simp
  | cons c rest ih =>
    simp only [List.foldl_cons, List.map_cons, List.sum_cons, ih]
    simp only [Prod.mk.injEq]
    constructor <;> ring

end MinTools

namespace MinTools

def rangeVariantA : Str := "BETWEEN_1024B_AND_1_MB".toList
def rangeVariantB : Str := "BETWEEN_1024_B_AND_1_MB".toList

/-- C2: the range-key normalizer is idempotent — for every string `s`,
`normalizeRange (normalizeRange s) = normalizeRange s` — and the two
spellings `BETWEEN_1024B_AND_1_MB` / `BETWEEN_1024_B_AND_1_MB`, differing
only by an underscore at a digit-to-letter boundary, normalize to the
identical key. -/
theorem claim_C2_normalize_idem_and_variants :
    (∀ s : Str, normalizeRange (normalizeRange s) = normalizeRange s) ∧
      normalizeRange rangeVariantA = normalizeRange rangeVariantB := by
  refine ⟨normalizeRange_idem, ?_⟩
  have hA : insertUnders rangeVariantA = rangeVariantB := by decide
  have hB : insertUnders rangeVariantB = rangeVariantB := by decide
  simp only [normalizeRange]
  rw [if_neg (show ¬(rangeVariantA = []) by decide),
    if_neg (show ¬(rangeVariantB = []) by decide), hA, hB]

/-- Value extraction as the spec words it: the last whitespace-delimited
token, parsed as an integer first, else as a float truncated toward
zero, else `0`. -/
def extractValueSpec (line : Str) : Int :=
  match (fields line).getLast? with
  | none => 0
  | some tok => ((goParseInt tok).orElse fun _ => goParseFloatTrunc tok).getD 0

/-- C3: `extractValue` takes the last whitespace-delimited token, parses
it as a base-10 integer first, then as a float truncated toward zero,
and yields `0` (never an error) when neither parse succeeds; the token
`5.67e+08` yields `567000000`. -/
theorem claim_C3_extract_value :
    (∀ line : Str, extractValue line = extractValueSpec line) ∧
      extractValue ("metric 5.67e+08".toList) = 567000000 ∧
      (∀ line tok : Str, (fields line).getLast? = some tok →
        goParseInt tok = none → goParseFloatTrunc tok = none →
        extractValue line = 0) := by
  refine ⟨?_, by decide, ?_⟩
  · intro line
    unfold extractValue extractValueSpec
    cases (fields line).getLast? with
    | none => rfl
    | some tok =>
      show ((match goParseInt tok with
        | some v => v
        | none =>
          match goParseFloatTrunc tok with
          | some v => v
          | none => 0 : Int)) =
        ((goParseInt tok).orElse fun _ => goParseFloatTrunc tok).getD 0
      cases goParseInt tok with
      | none => cases goParseFloatTrunc tok <;> rfl
      | some v => rfl
  · intro line tok hlast hint hfloat
    unfold extractValue
    rw [hlast]
    show ((match goParseInt tok with
      | some v => v
      | none =>
        match goParseFloatTrunc tok with
        | some v => v
        | none => 0 : Int)) = 0
    rw [hint, hfloat]

/-- C3 witness: a concrete line whose trailing token parses as neither
integer nor float extracts as `0`. -/
theorem claim_C3_extract_value_witness :
    (fields ("metric abc".toList)).getLast? = some ("abc".toList) ∧
      goParseInt ("abc".toList) = none ∧
      goParseFloatTrunc ("abc".toList) = none ∧
      extractValue ("metric abc".toList) = 0 :=
  ⟨by decide, by decide, by decide,
    claim_C3_extract_value.2.2 ("metric abc".toList) ("abc".toList)
      (by decide) (by decide) (by decide)⟩

def verMultiEx : Str := "BETWEEN_2_AND_10".toList

/-- C4: versioning-status derivation — empty map gives Unknown, then the
Unversioned / Single Version / Multi-Version / Mixed precedence on the
`UNVERSIONED`, `SINGLE_VERSION` and remaining ("multi") counts; with the
four concrete examples of the claim.  Counts are restricted to the
natural nonnegative domain, where the spec's "nonzero" coincides with the
code's `> 0`. -/
theorem claim_C4_versioning_status :
    (∀ m : List (Str × Int), (∀ p ∈ m, 0 ≤ p.2) →
        getVersioningStatus m = versioningStatusSpec m) ∧
      getVersioningStatus [(svKey, 5)] = "Single Version".toList ∧
      getVersioningStatus [(unvKey, 3)] = "Unversioned".toList ∧
      getVersioningStatus [(svKey, 5), (verMultiEx, 1)] = "Multi-Version".toList ∧
      getVersioningStatus [] = "Unknown".toList :=
  ⟨getVersioningStatus_eq_spec, by decide, by decide, by decide, by decide⟩

/-- C4 witness: the general equivalence applied at the concrete
single-version distribution. -/
theorem claim_C4_versioning_status_witness :
    getVersioningStatus [(svKey, 5)] = versioningStatusSpec [(svKey, 5)] :=
  claim_C4_versioning_status.1 [(svKey, 5)] (by decide)

/-- C5 counterexample: the claim says a grand total of zero yields
`Empty`, but on the empty distribution map — whose grand total is zero —
the code yields `Unknown`, not `Empty`. -/
theorem claim_C5_size_status_counterexample :
    sizeTotal ([] : List (Str × Int)) = 0 ∧
      getSizeStatus ([] : List (Str × Int)) ≠ "Empty".toList := by
  constructor
  · decide
  · decide

/-- C5 (amended): for a nonempty size-distribution map with nonnegative
counts, the size status follows the claimed partition and thresholds
(total zero → Empty, small ≥ 80% → Mostly Small, else medium ≥ 60% →
Mostly Medium, else large ≥ 60% → Mostly Large, else Mixed Sizes); the
empty map yields Unknown. -/
theorem claim_C5_size_status_amended :
    (∀ m : List (Str × Int), m ≠ [] → (∀ p ∈ m, 0 ≤ p.2) →
        getSizeStatus m = sizeStatusSpec m) ∧
      getSizeStatus ([] : List (Str × Int)) = "Unknown".toList :=
  ⟨getSizeStatus_eq_spec, by decide⟩

/-- C5 witness: the amended equivalence applied at a concrete
distribution (4 small objects, 1 medium: exactly 80% small, hence
`Mostly Small`). -/
theorem claim_C5_size_status_amended_witness :
    getSizeStatus [(kLt1KB, 4), (k1MB10MB, 1)] =
      sizeStatusSpec [(kLt1KB, 4), (k1MB10MB, 1)] :=
  claim_C5_size_status_amended.1 [(kLt1KB, 4), (k1MB10MB, 1)] (by decide) (by decide)

theorem tableRows_sorted (mp : MetricParser) (opts : DisplayOptions) :
    sizeSortedDesc (tableRows mp opts) := by
  simp only [tableRows]
  by_cases h1 : getSummary mp = []
  · rw [if_pos h1]
    by_cases h2 : clusterHasData mp
    · rw [if_pos h2]
      have hex : ∃ b ∈ [clusterRow mp], b.name = clusterName :=
        ⟨clusterRow mp, List.mem_singleton_self _, rfl⟩
      rw [if_neg fun hcond => hcond.2.2 hex]
      exact List.pairwise_singleton _ _
    · rw [if_neg h2]
      rw [if_neg fun hcond => h2 hcond.2.1]
      exact List.Pairwise.nil
  · rw [if_neg h1]
    by_cases hc : opts.cluster = true ∧ clusterHasData mp ∧
      ¬∃ b ∈ getSummary mp, b.name = clusterName
    · rw [if_pos hc]
      exact sortBySizeDesc_sorted _
    · rw [if_neg hc]
      exact sortBySizeDesc_sorted _

/-- C6: the list of bucket summaries produced for rendering is sorted
non-increasing in `sizeBytes` from top to bottom — both the `GetSummary`
result and the final row list of the summary table. -/
theorem claim_C6_rows_sorted_desc :
    (∀ mp : MetricParser, sizeSortedDesc (getSummary mp)) ∧
      ∀ (mp : MetricParser) (opts : DisplayOptions),
        sizeSortedDesc (tableRows mp opts) :=
  ⟨fun mp => sortBySizeDesc_sorted _, tableRows_sorted⟩

/-- C7: the totals-row accumulators equal the sums of `objectCount` and
`sizeBytes` over exactly the rendered rows (cluster-aggregate row
included whenever it is rendered, since it is then among
`tableRows`). -/
theorem claim_C7_totals_row :
    ∀ (mp : MetricParser) (opts : DisplayOptions),
      (tableTotals mp opts).1 = ((tableRows mp opts).map (·.objectCount)).sum ∧
        (tableTotals mp opts).2 = ((tableRows mp opts).map (·.sizeBytes)).sum := by
  intro mp opts
  unfold tableTotals
  rw [foldl_pair_sum]
  constructor <;> simp

end MinTools

namespace MinTools


theorem extractValue_zero_of_unparsed (line tok : Str)
    (hlast : (fields line).getLast? = some tok)
    (hint : goParseInt tok = none) (hfloat : goParseFloatTrunc tok = none) :
    extractValue line = 0 := by
  unfold extractValue
  rw [hlast]
  show ((match goParseInt tok with
    | some v => v
    | none =>
      match goParseFloatTrunc tok with
      | some v => v
      | none => 0 : Int)) = 0
  rw [hint, hfloat]

theorem processLine_skip (mp : MetricParser) (raw : Str)
    (hskip : startsWithS ['#'] (trimSpace raw) = true ∨ trimSpace raw = []) :
    processLine mp raw = mp := by
  unfold processLine
  rw [if_pos hskip]

theorem processLine_cluster (mp : MetricParser) (raw : Str)
    (hskip : ¬(startsWithS ['#'] (trimSpace raw) = true ∨ trimSpace raw = []))
    (hb : extractBucketName (trimSpace raw) = none) :
    processLine mp raw = clusterApply mp (trimSpace raw) := by
  unfold processLine
  rw [if_neg hskip, hb]

theorem processLine_bucket (mp : MetricParser) (raw : Str) (b' : Str)
    (hskip : ¬(startsWithS ['#'] (trimSpace raw) = true ∨ trimSpace raw = []))
    (hb : extractBucketName (trimSpace raw) = some b') :
    processLine mp raw = { mp with buckets := mapUpd b' (freshBucket b') (applyBucketLine (trimSpace raw) ((extractServerName (trimSpace raw)).getD [])) mp.buckets } := by
  unfold processLine
  rw [if_neg hskip, hb]

theorem clusterApply_buckets (mp : MetricParser) (line : Str) :
    (clusterApply mp line).buckets = mp.buckets := by
  unfold clusterApply
  cases hrv : extractRange line <;> split_ifs <;> rfl

theorem addServer_objectCount (bs : BucketSummary) (s : Str) :
    (addServer bs s).objectCount = bs.objectCount := by
  unfold addServer
  split <;> rfl

/-- The final `objectCount` read of a bucket (0 when the bucket is
absent, matching the freshly initialized value). -/
def objCountOf (mp : MetricParser) (b : Str) : Int :=
  ((alookup b mp.buckets).map (·.objectCount)).getD 0

/-- What one input line contributes to bucket `b`'s object count: its
extracted value when the (trimmed, non-comment, nonempty) line carries
`bucket="b"` and the object-count-total family substring, else 0. -/
def objContrib (b : Str) (raw : Str) : Int :=
  let line := trimSpace raw
  if startsWithS ['#'] line = true ∨ line = [] then 0
  else if extractBucketName line = some b ∧ containsStr objFam line = true then
    extractValue line
  else 0

theorem applyBucketLine_objectCount (line server : Str) (bs : BucketSummary) :
    (applyBucketLine line server bs).objectCount =
      bs.objectCount + (if containsStr objFam line = true then extractValue line else 0) := by
  unfold applyBucketLine
  cases hrv : extractRange line <;> split_ifs <;> simp [addServer_objectCount]

theorem processLine_objCountOf (mp : MetricParser) (raw : Str) (b : Str) :
    objCountOf (processLine mp raw) b = objCountOf mp b + objContrib b raw := by
  unfold objContrib
  by_cases hskip : startsWithS ['#'] (trimSpace raw) = true ∨ trimSpace raw = []
  · rw [processLine_skip mp raw hskip, if_pos hskip]
    simp
  · rw [if_neg hskip]
    cases hb : extractBucketName (trimSpace raw) with
    | none =>
      rw [processLine_cluster mp raw hskip hb]
      have hcond : ¬((none : Option Str) = some b ∧
          containsStr objFam (trimSpace raw) = true) := by
        rintro ⟨h, -⟩; exact Option.noConfusion h
      rw [if_neg hcond]
      unfold objCountOf
      rw [clusterApply_buckets]
      simp
    | some b' =>
      rw [processLine_bucket mp raw b' hskip hb]
      unfold objCountOf
      by_cases hbb : b' = b
      · rw [hbb]
        show ((alookup b (mapUpd b (freshBucket b)
            (applyBucketLine (trimSpace raw) ((extractServerName (trimSpace raw)).getD []))
            mp.buckets)).map (·.objectCount)).getD 0 = _
        rw [alookup_mapUpd_self]
        rw [Option.map_some', Option.getD_some, applyBucketLine_objectCount]
        have hcond : ((some b : Option Str) = some b ∧
            containsStr objFam (trimSpace raw) = true) ↔
            containsStr objFam (trimSpace raw) = true := by
          simp
        rw [if_congr hcond rfl rfl]
        cases halo : alookup b mp.buckets with
        | none => simp [freshBucket]
        | some bs => simp
      · show ((alookup b (mapUpd b' (freshBucket b')
            (applyBucketLine (trimSpace raw) ((extractServerName (trimSpace raw)).getD []))
            mp.buckets)).map (·.objectCount)).getD 0 = _
        rw [alookup_mapUpd_other _ _ _ _ _ hbb]
        have hcond : ¬((some b' : Option Str) = some b ∧
            containsStr objFam (trimSpace raw) = true) := by
          rintro ⟨h, -⟩
          exact hbb (Option.some.injEq .. ▸ h)
        rw [if_neg hcond]
        simp

theorem foldl_objCountOf (input : List Str) (mp : MetricParser) (b : Str) :
    objCountOf (input.foldl processLine mp) b =
      objCountOf mp b + (input.map (objContrib b)).sum := by
  induction input generalizing mp with
  | nil => simp
  | cons raw rest ih =>
    rw [List.foldl_cons, ih, processLine_objCountOf, List.map_cons, List.sum_cons]
    ring

/-- C1: for every parsed input, each bucket present in the final state
has `objectCount` equal to the sum of the extracted values of all
(non-comment, nonempty) lines that carry that bucket's label and contain
the `minio_bucket_usage_object_total` family substring — additive over
all servers, never overwritten. -/
theorem claim_C1_object_count_additive :
    ∀ (input : List Str) (b : Str) (bs : BucketSummary),
      alookup b (parseLines input).buckets = some bs →
      bs.objectCount = (input.map (objContrib b)).sum := by
  intro input b bs h
  have hfold := foldl_objCountOf input newMetricParser b
  unfold parseLines at h
  unfold objCountOf at hfold
  rw [h] at hfold
  simpa [newMetricParser, alookup] using hfold

def c1Line1 : Str := "minio_bucket_usage_object_total bucket=\"b1\" server=\"s1\" 3".toList
def c1Line2 : Str := "minio_bucket_usage_object_total bucket=\"b1\" server=\"s2\" 4".toList
def c1Bucket : Str := "b1".toList

def c1Expected : BucketSummary :=
  { name := c1Bucket, objectCount := 7, sizeBytes := 0, sizeHuman := none,
    servers := ["s1".toList, "s2".toList],
    versionDistribution := [], sizeDistribution := [] }

/-- C1 witness: two object-total lines for the same bucket from two
servers accumulate additively to 7. -/
theorem claim_C1_object_count_additive_witness :
    alookup c1Bucket (parseLines [c1Line1, c1Line2]).buckets = some c1Expected ∧
      c1Expected.objectCount = ([c1Line1, c1Line2].map (objContrib c1Bucket)).sum :=
  ⟨by decide,
    claim_C1_object_count_additive [c1Line1, c1Line2] c1Bucket c1Expected (by decide)⟩

end MinTools

namespace MinTools

/-- What one input line contributes to the cluster object total: its
value when it is a parsed (non-comment, nonempty) line without a bucket
label containing the cluster object-total family, else 0. -/
def clusterObjContrib (raw : Str) : Int :=
  let line := trimSpace raw
  if startsWithS ['#'] line = true ∨ line = [] then 0
  else if extractBucketName line ≠ none then 0
  else if containsStr clObjFam line = true then extractValue line
  else 0

/-- What one input line contributes to the cluster byte total (the
object-total check has priority, mirroring the `continue` chain). -/
def clusterByteContrib (raw : Str) : Int :=
  let line := trimSpace raw
  if startsWithS ['#'] line = true ∨ line = [] then 0
  else if extractBucketName line ≠ none then 0
  else if containsStr clObjFam line = true then 0
  else if containsStr clBytesFam line = true then extractValue line
  else 0

theorem clusterApply_clusterObjects (mp : MetricParser) (line : Str) :
    (clusterApply mp line).clusterObjects =
      mp.clusterObjects + (if containsStr clObjFam line = true then extractValue line else 0) := by
  unfold clusterApply
  cases hrv : extractRange line <;> split_ifs <;> simp

theorem clusterApply_clusterBytes (mp : MetricParser) (line : Str) :
    (clusterApply mp line).clusterBytes =
      mp.clusterBytes +
        (if containsStr clObjFam line = true then 0
          else if containsStr clBytesFam line = true then extractValue line else 0) := by
  unfold clusterApply
  cases hrv : extractRange line <;> split_ifs <;> simp

theorem processLine_clusterObjects (mp : MetricParser) (raw : Str) :
    (processLine mp raw).clusterObjects = mp.clusterObjects + clusterObjContrib raw := by
  unfold clusterObjContrib
  by_cases hskip : startsWithS ['#'] (trimSpace raw) = true ∨ trimSpace raw = []
  · rw [processLine_skip mp raw hskip, if_pos hskip]
    simp
  · rw [if_neg hskip]
    cases hb : extractBucketName (trimSpace raw) with
    | none =>
      rw [processLine_cluster mp raw hskip hb, clusterApply_clusterObjects]
      rw [if_neg (show ¬((none : Option Str) ≠ none) from fun hne => hne rfl)]
    | some b' =>
      rw [processLine_bucket mp raw b' hskip hb]
      rw [if_pos (show (some b' : Option Str) ≠ none from fun h => Option.noConfusion h)]
      simp

theorem processLine_clusterBytes (mp : MetricParser) (raw : Str) :
    (processLine mp raw).clusterBytes = mp.clusterBytes + clusterByteContrib raw := by
  unfold clusterByteContrib
  by_cases hskip : startsWithS ['#'] (trimSpace raw) = true ∨ trimSpace raw = []
  · rw [processLine_skip mp raw hskip, if_pos hskip]
    simp
  · rw [if_neg hskip]
    cases hb : extractBucketName (trimSpace raw) with
    | none =>
      rw [processLine_cluster mp raw hskip hb, clusterApply_clusterBytes]
      rw [if_neg (show ¬((none : Option Str) ≠ none) from fun hne => hne rfl)]
    | some b' =>
      rw [processLine_bucket mp raw b' hskip hb]
      rw [if_pos (show (some b' : Option Str) ≠ none from fun h => Option.noConfusion h)]
      simp

theorem processLine_buckets_of_nobucket (mp : MetricParser) (raw : Str)
    (hb : extractBucketName (trimSpace raw) = none) :
    (processLine mp raw).buckets = mp.buckets := by
  by_cases hskip : startsWithS ['#'] (trimSpace raw) = true ∨ trimSpace raw = []
  · rw [processLine_skip mp raw hskip]
  · rw [processLine_cluster mp raw hskip hb, clusterApply_buckets]

theorem foldl_clusterObjects (input : List Str) (mp : MetricParser) :
    (input.foldl processLine mp).clusterObjects =
      mp.clusterObjects + (input.map clusterObjContrib).sum := by
  induction input generalizing mp with
  | nil => simp
  | cons raw rest ih =>
    rw [List.foldl_cons, ih, processLine_clusterObjects, List.map_cons, List.sum_cons]
    ring

theorem foldl_clusterBytes (input : List Str) (mp : MetricParser) :
    (input.foldl processLine mp).clusterBytes =
      mp.clusterBytes + (input.map clusterByteContrib).sum := by
  induction input generalizing mp with
  | nil => simp
  | cons raw rest ih =>
    rw [List.foldl_cons, ih, processLine_clusterBytes, List.map_cons, List.sum_cons]
    ring

theorem foldl_buckets_of_nobucket (input : List Str) (mp : MetricParser)
    (h : ∀ raw ∈ input, extractBucketName (trimSpace raw) = none) :
    (input.foldl processLine mp).buckets = mp.buckets := by
  induction input generalizing mp with
  | nil => rfl
  | cons raw rest ih =>
    rw [List.foldl_cons, ih _ fun r hr => h r (List.mem_cons_of_mem _ hr),
      processLine_buckets_of_nobucket _ _ (h raw (List.mem_cons_self _ _))]

/-- C8: an input whose every line lacks a bucket label, whose cluster
object-total lines sum to 12345 and whose cluster byte-total lines sum
to 567000000 (the integer value of `5.67e+08`), yields a report with
exactly one synthetic row: the sentinel-named cluster aggregate with
`objectCount = 12345` and `sizeBytes = 567000000`. -/
theorem claim_C8_cluster_fallback :
    ∀ input : List Str,
      (∀ raw ∈ input, extractBucketName (trimSpace raw) = none) →
      (input.map clusterObjContrib).sum = 12345 →
      (input.map clusterByteContrib).sum = 567000000 →
      ∀ opts : DisplayOptions,
        (tableRows (parseLines input) opts).map
            (fun b => (b.name, b.objectCount, b.sizeBytes)) =
          [(clusterName, 12345, 567000000)] := by
  intro input h1 h2 h3 opts
  have hobj : (parseLines input).clusterObjects = 12345 := by
    unfold parseLines
    rw [foldl_clusterObjects, h2]
    rfl
  have hbyt : (parseLines input).clusterBytes = 567000000 := by
    unfold parseLines
    rw [foldl_clusterBytes, h3]
    rfl
  have hbk : (parseLines input).buckets = [] := by
    unfold parseLines
    exact foldl_buckets_of_nobucket input newMetricParser h1
  have hsum : getSummary (parseLines input) = [] := by
    unfold getSummary
    rw [hbk]
    rfl
  have hcd : clusterHasData (parseLines input) := Or.inl (by rw [hobj]; norm_num)
  simp only [tableRows]
  rw [if_pos hsum, if_pos hcd]
  have hex : ∃ b ∈ [clusterRow (parseLines input)], b.name = clusterName :=
    ⟨clusterRow (parseLines input), List.mem_singleton_self _, rfl⟩
  rw [if_neg fun hcond => hcond.2.2 hex]
  simp [clusterRow, hobj, hbyt]

def c8Line1 : Str := "minio_cluster_usage_object_total 12345".toList
def c8Line2 : Str := "minio_cluster_usage_total_bytes 5.67e+08".toList

/-- C8 witness: the concrete two-line cluster-only input of the claim
produces exactly the single synthetic row. -/
theorem claim_C8_cluster_fallback_witness :
    ([c8Line1, c8Line2].map clusterObjContrib).sum = 12345 ∧
      ([c8Line1, c8Line2].map clusterByteContrib).sum = 567000000 ∧
      (tableRows (parseLines [c8Line1, c8Line2]) ⟨false, false, false⟩).map
          (fun b => (b.name, b.objectCount, b.sizeBytes)) =
        [(clusterName, 12345, 567000000)] :=
  ⟨by decide, by decide,
    claim_C8_cluster_fallback [c8Line1, c8Line2] (by decide) (by decide) (by decide)
      ⟨false, false, false⟩⟩

end MinTools

namespace MinTools

theorem processLine_id_of_inert (mp : MetricParser) (raw : Str)
    (hbk : extractBucketName (trimSpace raw) = none)
    (hrg : extractRange (trimSpace raw) = none)
    (hval : extractValue (trimSpace raw) = 0) :
    processLine mp raw = mp := by
  by_cases hskip : startsWithS ['#'] (trimSpace raw) = true ∨ trimSpace raw = []
  · exact processLine_skip mp raw hskip
  · rw [processLine_cluster mp raw hskip hbk]
    unfold clusterApply
    rw [hval, hrg]
    split_ifs <;> simp

/-- C9 (amended): a line whose trailing token parses as neither integer
nor float, and which carries neither a bucket label nor a range label,
leaves the parser state — and hence every rendered report — exactly as
if the line were removed; in particular it never aborts the parse. -/
theorem claim_C9_malformed_line_amended :
    ∀ (pre post : List Str) (bad tok : Str),
      (fields (trimSpace bad)).getLast? = some tok →
      goParseInt tok = none →
      goParseFloatTrunc tok = none →
      extractBucketName (trimSpace bad) = none →
      extractRange (trimSpace bad) = none →
      parseLines (pre ++ bad :: post) = parseLines (pre ++ post) ∧
        ∀ opts : DisplayOptions,
          tableRows (parseLines (pre ++ bad :: post)) opts =
            tableRows (parseLines (pre ++ post)) opts := by
  intro pre post bad tok hlast hint hfloat hbk hrg
  have hval : extractValue (trimSpace bad) = 0 :=
    extractValue_zero_of_unparsed _ _ hlast hint hfloat
  have hstate : parseLines (pre ++ bad :: post) = parseLines (pre ++ post) := by
    unfold parseLines
    rw [List.foldl_append, List.foldl_append, List.foldl_cons,
      processLine_id_of_inert _ bad hbk hrg hval]
  exact ⟨hstate, fun opts => by rw [hstate]⟩

def c9Good : Str := "minio_bucket_usage_object_total bucket=\"a\" 5".toList
def c9Good2 : Str := "minio_bucket_usage_total_bytes bucket=\"a\" 9".toList
def c9Bad : Str := "minio_bucket_usage_object_total bucket=\"zzz\" abc".toList
def c9Inert : Str := "minio_unknown_metric abc".toList
def plainOpts : DisplayOptions := ⟨false, false, false⟩

/-- C9 counterexample: a line with an unparseable trailing token,
surrounded by valid lines, that carries a bucket label still registers
that bucket, so the report gains a row that removing the line would not
have — the claim's "identical report" fails. -/
theorem claim_C9_malformed_line_counterexample :
    goParseInt ("abc".toList) = none ∧
      goParseFloatTrunc ("abc".toList) = none ∧
      (fields (trimSpace c9Bad)).getLast? = some ("abc".toList) ∧
      tableRows (parseLines [c9Good, c9Bad, c9Good2]) plainOpts ≠
        tableRows (parseLines [c9Good, c9Good2]) plainOpts := by
  refine ⟨by decide, by decide, by decide, by decide⟩

/-- C9 witness: for a malformed line without bucket or range labels the
parse state is identical to the input with the line removed. -/
theorem claim_C9_malformed_line_amended_witness :
    parseLines ([c9Good] ++ c9Inert :: []) = parseLines ([c9Good] ++ []) :=
  (claim_C9_malformed_line_amended [c9Good] [] c9Inert ("abc".toList)
    (by decide) (by decide) (by decide) (by decide) (by decide)).1

end MinTools

namespace MinTools

theorem addServer_mem_self (bs : BucketSummary) (s : Str) :
    s ∈ (addServer bs s).servers := by
  unfold addServer
  split
  · assumption
  · simp

theorem addServer_mem_mono (bs : BucketSummary) (s x : Str) (h : x ∈ bs.servers) :
    x ∈ (addServer bs s).servers := by
  unfold addServer
  split
  · exact h
  · simp [h]

theorem addServer_nodup (bs : BucketSummary) (s : Str) (h : bs.servers.Nodup) :
    (addServer bs s).servers.Nodup := by
  unfold addServer
  split
  · exact h
  · rename_i hmem
    simp [List.nodup_append, h, hmem]

theorem applyBucketLine_servers (line server : Str) (bs : BucketSummary) :
    (applyBucketLine line server bs).servers = (addServer bs server).servers := by
  unfold applyBucketLine
  cases hrv : extractRange line <;> split_ifs <;> rfl

theorem processLine_server_pres (mp : MetricParser) (raw b s : Str)
    (h : ∃ bs, alookup b mp.buckets = some bs ∧ s ∈ bs.servers) :
    ∃ bs', alookup b (processLine mp raw).buckets = some bs' ∧ s ∈ bs'.servers := by
  obtain ⟨bs, hbs, hs⟩ := h
  by_cases hskip : startsWithS ['#'] (trimSpace raw) = true ∨ trimSpace raw = []
  · rw [processLine_skip mp raw hskip]
    exact ⟨bs, hbs, hs⟩
  · cases hb : extractBucketName (trimSpace raw) with
    | none =>
      rw [processLine_cluster mp raw hskip hb, clusterApply_buckets]
      exact ⟨bs, hbs, hs⟩
    | some b' =>
      rw [processLine_bucket mp raw b' hskip hb]
      by_cases hbb : b' = b
      · subst hbb
        refine ⟨applyBucketLine (trimSpace raw) ((extractServerName (trimSpace raw)).getD [])
          ((alookup b' mp.buckets).getD (freshBucket b')), ?_, ?_⟩
        · exact alookup_mapUpd_self b' (freshBucket b') _ mp.buckets
        · rw [applyBucketLine_servers]
          apply addServer_mem_mono
          rw [hbs]
          exact hs
      · refine ⟨bs, ?_, hs⟩
        have : alookup b (mapUpd b' (freshBucket b')
            (applyBucketLine (trimSpace raw) ((extractServerName (trimSpace raw)).getD []))
            mp.buckets) = alookup b mp.buckets :=
          alookup_mapUpd_other _ _ _ _ _ hbb
        rw [show alookup b ({ mp with buckets := mapUpd b' (freshBucket b') (applyBucketLine (trimSpace raw) ((extractServerName (trimSpace raw)).getD [])) mp.buckets } : MetricParser).buckets = alookup b (mapUpd b' (freshBucket b') (applyBucketLine (trimSpace raw) ((extractServerName (trimSpace raw)).getD [])) mp.buckets) from rfl, this]
        exact hbs

theorem foldl_server_pres (input : List Str) (mp : MetricParser) (b s : Str)
    (h : ∃ bs, alookup b mp.buckets = some bs ∧ s ∈ bs.servers) :
    ∃ bs', alookup b ((input.foldl processLine mp)).buckets = some bs' ∧ s ∈ bs'.servers := by
  induction input generalizing mp with
  | nil => exact h
  | cons raw rest ih =>
    rw [List.foldl_cons]
    exact ih _ (processLine_server_pres mp raw b s h)

theorem processLine_establishes (mp : MetricParser) (raw b : Str)
    (hskip : ¬(startsWithS ['#'] (trimSpace raw) = true ∨ trimSpace raw = []))
    (hb : extractBucketName (trimSpace raw) = some b) :
    ∃ bs, alookup b (processLine mp raw).buckets = some bs ∧
      (extractServerName (trimSpace raw)).getD [] ∈ bs.servers := by
  rw [processLine_bucket mp raw b hskip hb]
  refine ⟨applyBucketLine (trimSpace raw) ((extractServerName (trimSpace raw)).getD [])
    ((alookup b mp.buckets).getD (freshBucket b)), ?_, ?_⟩
  · exact alookup_mapUpd_self b (freshBucket b) _ mp.buckets
  · rw [applyBucketLine_servers]
    exact addServer_mem_self _ _

theorem foldl_establishes (input : List Str) (mp : MetricParser) (raw b : Str)
    (hmem : raw ∈ input)
    (hskip : ¬(startsWithS ['#'] (trimSpace raw) = true ∨ trimSpace raw = []))
    (hb : extractBucketName (trimSpace raw) = some b) :
    ∃ bs, alookup b ((input.foldl processLine mp)).buckets = some bs ∧
      (extractServerName (trimSpace raw)).getD [] ∈ bs.servers := by
  induction input generalizing mp with
  | nil => cases hmem
  | cons a rest ih =>
    rw [List.foldl_cons]
    rcases List.mem_cons.mp hmem with rfl | hmem'
    · exact foldl_server_pres rest _ b _ (processLine_establishes mp raw b hskip hb)
    · exact ih (processLine mp a) hmem'

theorem processLine_nodup_inv (mp : MetricParser) (raw : Str)
    (h : ∀ b bs, alookup b mp.buckets = some bs → bs.servers.Nodup) :
    ∀ b bs, alookup b (processLine mp raw).buckets = some bs → bs.servers.Nodup := by
  intro b bs hbs
  by_cases hskip : startsWithS ['#'] (trimSpace raw) = true ∨ trimSpace raw = []
  · rw [processLine_skip mp raw hskip] at hbs
    exact h b bs hbs
  · cases hbn : extractBucketName (trimSpace raw) with
    | none =>
      rw [processLine_cluster mp raw hskip hbn, clusterApply_buckets] at hbs
      exact h b bs hbs
    | some b' =>
      rw [processLine_bucket mp raw b' hskip hbn] at hbs
      have hbs' : alookup b (mapUpd b' (freshBucket b')
          (applyBucketLine (trimSpace raw) ((extractServerName (trimSpace raw)).getD []))
          mp.buckets) = some bs := hbs
      by_cases hbb : b' = b
      · subst hbb
        rw [alookup_mapUpd_self] at hbs'
        have hbseq := Option.some.injEq .. ▸ hbs'
        rw [← hbseq, applyBucketLine_servers]
        apply addServer_nodup
        cases halo : alookup b' mp.buckets with
        | none => simp [freshBucket]
        | some bs0 => simpa using h b' bs0 halo
      · rw [alookup_mapUpd_other _ _ _ _ _ hbb] at hbs'
        exact h b bs hbs'

theorem parseLines_nodup (input : List Str) :
    ∀ b bs, alookup b (parseLines input).buckets = some bs → bs.servers.Nodup := by
  unfold parseLines
  have base : ∀ b bs, alookup b newMetricParser.buckets = some bs → bs.servers.Nodup := by
    intro b bs hbs
    simp [newMetricParser, alookup] at hbs
  generalize newMetricParser = mp at base ⊢
  induction input generalizing mp with
  | nil => exact base
  | cons raw rest ih =>
    rw [List.foldl_cons]
    exact ih _ (processLine_nodup_inv mp raw base)

/-- C10 (implicit): every parsed (non-comment, nonempty) line carrying a
bucket label registers that bucket — its entry exists after the parse —
and adds the line's server-label value (empty when absent) to that
bucket's server list, at most once (the list stays duplicate-free), even
when the line matches no recognized per-bucket metric family. -/
theorem claim_C10_bucket_registration :
    (∀ (input : List Str) (raw b : Str), raw ∈ input →
        ¬(startsWithS ['#'] (trimSpace raw) = true ∨ trimSpace raw = []) →
        extractBucketName (trimSpace raw) = some b →
        ∃ bs, alookup b (parseLines input).buckets = some bs ∧
          (extractServerName (trimSpace raw)).getD [] ∈ bs.servers) ∧
      ∀ (input : List Str) (b : Str) (bs : BucketSummary),
        alookup b (parseLines input).buckets = some bs → bs.servers.Nodup :=
  ⟨fun input raw b hmem hskip hb => foldl_establishes input newMetricParser raw b hmem hskip hb,
    parseLines_nodup⟩

def c10Line : Str := "unrecognized_family bucket=\"bx\" server=\"sx\" 1".toList

/-- C10 witness: a line matching no recognized metric family still
registers its bucket and server. -/
theorem claim_C10_bucket_registration_witness :
    ∃ bs, alookup ("bx".toList) (parseLines [c10Line]).buckets = some bs ∧
      (extractServerName (trimSpace c10Line)).getD [] ∈ bs.servers :=
  claim_C10_bucket_registration.1 [c10Line] c10Line ("bx".toList)
    (List.mem_singleton_self _) (by decide) (by decide)

end MinTools
